import Mathlib

/-!
Verification of the bus-display arrival aggregation pipeline.

This file gives a shallow embedding of the core pipeline of the repository
(`worker.js`, multi-stop variant, together with the single-stop variant's
time formatter) and proves properties of it.  Feed records are modelled with
`Option` fields for the fields the source checks for presence/falsiness;
timestamps are integers (unix seconds); the "now" instant, captured once per
request in the source from the clock, is an explicit parameter here.
-/

/-- Maximum number of upcoming arrivals to show (worker.js line 7). -/
def MAX_ARRIVALS : Nat := 8

/-- Arrival information of a stop-time update: `arrival.time` and the
optional `arrival.delay` (absent or zero both collapse to a 0 deviation in
the source via `delay || 0`). A zero `time` is treated by the source as
"unspecified" (the truthiness check on line 83 of worker.js). -/
structure ArrivalInfo where
  time : Int
  delay : Option Int
  deriving DecidableEq

/-- One stop-time update of a trip update (worker.js lines 78-95). -/
structure StopTimeUpdate where
  stopId : Option String
  arrival : Option ArrivalInfo
  deriving DecidableEq

/-- Trip descriptor carrying the raw route identifier (worker.js line 70). -/
structure Trip where
  routeId : Option String
  deriving DecidableEq

/-- One trip update: the trip descriptor and its stop-time updates
(worker.js lines 69-72). -/
structure TripUpdate where
  trip : Option Trip
  stopTimeUpdate : Option (List StopTimeUpdate)
  deriving DecidableEq

/-- One feed entity (worker.js line 66). -/
structure Entity where
  tripUpdate : Option TripUpdate
  deriving DecidableEq

/-- The decoded GTFS realtime feed; `entity` may be absent entirely
(worker.js line 59). -/
structure Feed where
  entity : Option (List Entity)
  deriving DecidableEq

/-- A derived arrival candidate pushed into a stop's buffer
(worker.js lines 91-95). -/
structure Candidate where
  routeId : String
  arrivalTimestamp : Int
  deviation : Int
  deriving DecidableEq

/-- A formatted arrival as emitted across the boundary (worker.js lines
125-129).  Note the record deliberately has no `arrivalTimestamp` field:
the internal sort key is not part of the output shape. -/
structure FormattedArrival where
  routeId : String
  arriving : String
  deviation : Int
  deriving DecidableEq

/-- One output entry per requested stop (worker.js lines 131-134). -/
structure StopResult where
  stopId : String
  arrivals : List FormattedArrival
  deriving DecidableEq

/-- The per-stop buffer map.  JavaScript `Map` iterates in key insertion
order, so it is modelled as an association list with `Map` semantics. -/
abbrev StopMap : Type := List (String × List Candidate)

/-- Lookup in the map, mirroring `Map.prototype.get`. -/
def mapGet : StopMap → String → Option (List Candidate)
  | [], _ => none
  | e :: rest, k => if e.1 = k then some e.2 else mapGet rest k

/-- Key-membership test, mirroring `Map.prototype.has`. -/
def mapHas (m : StopMap) (k : String) : Bool := (mapGet m k).isSome

/-- Insertion/update, mirroring `Map.prototype.set`: an existing key keeps
its position and gets the new value, a new key is appended at the end. -/
def mapSet : StopMap → String → List Candidate → StopMap
  | [], k, v => [(k, v)]
  | e :: rest, k, v => if e.1 = k then (k, v) :: rest else e :: mapSet rest k v

/-- The list of keys of the map, in iteration order. -/
def mapKeys (m : StopMap) : List String := m.map (·.1)

/-- Route-suffix stripping, `rawRouteId.split('-')[0]` on worker.js line 75:
the substring before the first occurrence of the separator. -/
def stripRouteSuffix (s : String) : String := String.mk (s.data.takeWhile (· != '-'))

/-- Modelled from the spec: `Date.prototype.toLocaleTimeString` and the ICU
time-zone database are platform facilities, not code of this repository.
Component: converts a count of days since 1970-01-01 to a civil (year,
month, day) triple, used to locate the US daylight-saving transition days
of the Pacific zone. -/
def civilFromDays (z0 : Int) : Int × Int × Int :=
  let z := z0 + 719468
  let era : Int := z.fdiv 146097
  let doe : Int := z - era * 146097
  let yoe : Int := (doe - doe.fdiv 1460 + doe.fdiv 36524 - doe.fdiv 146096).fdiv 365
  let y : Int := yoe + era * 400
  let doy : Int := doe - (365 * yoe + yoe.fdiv 4 - yoe.fdiv 100)
  let mp : Int := (5 * doy + 2).fdiv 153
  let d : Int := doy - (153 * mp + 2).fdiv 5 + 1
  let m : Int := if mp < 10 then mp + 3 else mp - 9
  (if m ≤ 2 then y + 1 else y, m, d)

/-- Modelled from the spec: inverse of `civilFromDays`, days since
1970-01-01 of a civil date. -/
def daysFromCivil (y m d : Int) : Int :=
  let y2 := if m ≤ 2 then y - 1 else y
  let era := y2.fdiv 400
  let yoe := y2 - era * 400
  let mp := if 2 < m then m - 3 else m + 9
  let doy := (153 * mp + 2).fdiv 5 + d - 1
  let doe := yoe * 365 + yoe.fdiv 4 - yoe.fdiv 100 + doy
  era * 146097 + doe - 719468

/-- Day of week of a day number (0 = Sunday; 1970-01-01 was a Thursday). -/
def weekday (z : Int) : Int := (z + 4).emod 7

/-- First Sunday on or after the given day number. -/
def firstSundayOnOrAfter (z : Int) : Int := z + (7 - weekday z).emod 7

/-- Modelled from the spec: whether the fixed Pacific zone
(America/Los_Angeles) observes daylight saving at the given unix instant,
per the post-2007 US rules: from 02:00 standard time on the second Sunday
of March (10:00 UTC) until 02:00 daylight time on the first Sunday of
November (09:00 UTC). -/
def pacificDst (ts : Int) : Bool :=
  let y := (civilFromDays (ts.fdiv 86400)).1
  let dstStart := firstSundayOnOrAfter (daysFromCivil y 3 1) * 86400 + 7 * 86400 + 10 * 3600
  let dstEnd := firstSundayOnOrAfter (daysFromCivil y 11 1) * 86400 + 9 * 3600
  decide (dstStart ≤ ts ∧ ts < dstEnd)

/-- Two-digit minute field, as produced by the `minute: '2-digit'` option. -/
def pad2 (n : Int) : String := if n < 10 then ("0") ++ toString n else toString n

/-- Modelled from the spec: the wall-clock string produced by
`date.toLocaleTimeString('en-US', { timeZone: 'America/Los_Angeles',
hour: 'numeric', minute: '2-digit', hour12: true })` on worker.js lines
35-40 — a 12-hour clock reading of the instant in the Pacific zone with an
upper-case AM/PM marker (the source lower-cases it afterwards). -/
def toLocaleTimeStringPacific (timestamp : Int) : String :=
  let offset : Int := if pacificDst timestamp then -25200 else -28800
  let loc := timestamp + offset
  let secOfDay := loc.emod 86400
  let hour24 := secOfDay / 3600
  let minute := (secOfDay % 3600) / 60
  let hour12 := if hour24 % 12 = 0 then 12 else hour24 % 12
  let marker := if hour24 < 12 then ("AM") else ("PM")
  toString hour12 ++ ":" ++ pad2 minute ++ " " ++ marker

/-- Modelled from the spec: JavaScript `String.prototype.toLowerCase`
(worker.js line 42), character-wise lower-casing. -/
def jsToLowerCase (s : String) : String := String.mk (s.data.map Char.toLower)

/-- Format a unix timestamp as an arrival time string
(worker.js lines 24-43, multi-stop variant, unit label "min"). -/
def formatArrivalTime (timestamp nowTimestamp : Int) : String :=
  let minutesUntilArrival := (timestamp - nowTimestamp).fdiv 60
  if minutesUntilArrival < 60 then
    let minutes := max 0 minutesUntilArrival
    if minutes = 0 then ("Now") else toString minutes ++ " min"
  else
    jsToLowerCase (toLocaleTimeStringPacific timestamp)

/-- Format a unix timestamp as an arrival time string (single-stop variant,
lines 24-43 of the unnamed source file, unit label "m"). -/
def formatArrivalTimeSingleStop (timestamp nowTimestamp : Int) : String :=
  let minutesUntilArrival := (timestamp - nowTimestamp).fdiv 60
  if minutesUntilArrival < 60 then
    let minutes := max 0 minutesUntilArrival
    if minutes = 0 then ("Now") else toString minutes ++ " m"
  else
    jsToLowerCase (toLocaleTimeStringPacific timestamp)

/-- Ordering of candidates used by the sort comparator
`(a, b) => a.arrivalTimestamp - b.arrivalTimestamp` on worker.js line 122. -/
def candLE (a b : Candidate) : Prop := a.arrivalTimestamp ≤ b.arrivalTimestamp

instance : DecidableRel candLE :=
  fun a b => inferInstanceAs (Decidable (a.arrivalTimestamp ≤ b.arrivalTimestamp))

instance : IsTotal Candidate candLE := ⟨fun _ _ => Int.le_total _ _⟩

instance : IsTrans Candidate candLE := ⟨fun _ _ _ h h' => le_trans h h'⟩

/-- Projection of a candidate to the emitted record (worker.js lines
125-129): the internal `arrivalTimestamp` is used to format `arriving` but
is itself dropped. -/
def formatCandidate (now : Int) (a : Candidate) : FormattedArrival :=
  ⟨a.routeId, formatArrivalTime a.arrivalTimestamp now, a.deviation⟩

/-- Format and sort arrivals for each stop (worker.js lines 117-138).
JavaScript `Array.prototype.sort` is required to be stable, which insertion
sort realizes; `slice(0, MAX_ARRIVALS)` is `take`. -/
def formatResults (stopArrivals : StopMap) (nowTimestamp : Int) : List StopResult :=
  stopArrivals.map (fun e =>
    ⟨e.1, ((List.insertionSort candLE e.2).take MAX_ARRIVALS).map (formatCandidate nowTimestamp)⟩)

/-- State of the feed scan: the per-stop buffers, the early-exit counter
`stopsNeedingMore`, and whether the scan has broken out of the loops. -/
structure ScanState where
  stopArrivals : StopMap
  stopsNeedingMore : Int
  done : Bool
  deriving DecidableEq

/-- Process one stop-time update (worker.js lines 78-102): skip it unless
its stop is requested, its arrival time is specified (truthy) and strictly
in the future; otherwise append a candidate to the stop's buffer, and when
the buffer reaches `MAX_ARRIVALS * 3` decrement the early-exit counter,
breaking out when it reaches zero. -/
def processStopUpdate (nowTimestamp : Int) (routeId : String) (st : ScanState)
    (su : StopTimeUpdate) : ScanState :=
  if st.done then st else
  match su.stopId with
  | none => st
  | some stopId =>
    if mapHas st.stopArrivals stopId then
      match su.arrival with
      | none => st
      | some arr =>
        if arr.time = 0 then st
        else if arr.time ≤ nowTimestamp then st
        else
          let buf := (mapGet st.stopArrivals stopId).getD []
          let newBuf := buf ++ [⟨routeId, arr.time, arr.delay.getD 0⟩]
          let m := mapSet st.stopArrivals stopId newBuf
          if newBuf.length = MAX_ARRIVALS * 3 then
            ⟨m, st.stopsNeedingMore - 1, decide (st.stopsNeedingMore - 1 = 0)⟩
          else
            ⟨m, st.stopsNeedingMore, st.done⟩
    else st

/-- Process one feed entity (worker.js lines 66-106): skip it when the trip
update, the raw route id, or the stop-time update list is missing (or the
route id is the empty string, which is falsy); otherwise strip the route
suffix once and fold over the stop-time updates, then break out of the
scan when the early-exit counter has reached zero. -/
def processEntity (nowTimestamp : Int) (st : ScanState) (e : Entity) : ScanState :=
  if st.done then st else
  match e.tripUpdate with
  | none => st
  | some tripUpdate =>
    match tripUpdate.trip.bind Trip.routeId, tripUpdate.stopTimeUpdate with
    | none, _ => st
    | some _, none => st
    | some rawRouteId, some stopTimeUpdates =>
      if rawRouteId = "" then st
      else
        let routeId := stripRouteSuffix rawRouteId
        let st1 := stopTimeUpdates.foldl (processStopUpdate nowTimestamp routeId) st
        if st1.stopsNeedingMore = 0 then ⟨st1.stopArrivals, st1.stopsNeedingMore, true⟩ else st1

/-- The buffer map pre-seeded with an empty list for every requested stop
(worker.js lines 55-56). -/
def seedMap (requestedStopIds : List String) : StopMap :=
  requestedStopIds.foldl (fun m s => mapSet m s []) []

/-- Initial scan state (worker.js lines 55-64). -/
def initState (requestedStopIds : List String) : ScanState :=
  ⟨seedMap requestedStopIds, (requestedStopIds.length : Int), false⟩

/-- Process GTFS realtime data and extract arrivals for multiple stops
(worker.js lines 51-109), with the captured "now" instant as an explicit
parameter. -/
def processGTFSData (gtfsData : Feed) (requestedStopIds : List String)
    (nowTimestamp : Int) : List StopResult :=
  match gtfsData.entity with
  | none => formatResults (seedMap requestedStopIds) nowTimestamp
  | some entities =>
    formatResults
      ((entities.foldl (processEntity nowTimestamp) (initState requestedStopIds)).stopArrivals)
      nowTimestamp

/-- The stop-time update step of the reference pipeline that scans the
entire feed to exhaustion: the same admission logic as `processStopUpdate`
with the early-exit bookkeeping removed. -/
def processStopUpdateFull (nowTimestamp : Int) (routeId : String) (m : StopMap)
    (su : StopTimeUpdate) : StopMap :=
  match su.stopId with
  | none => m
  | some stopId =>
    if mapHas m stopId then
      match su.arrival with
      | none => m
      | some arr =>
        if arr.time = 0 then m
        else if arr.time ≤ nowTimestamp then m
        else mapSet m stopId ((mapGet m stopId).getD [] ++ [⟨routeId, arr.time, arr.delay.getD 0⟩])
    else m

/-- The entity step of the full-scan reference pipeline. -/
def processEntityFull (nowTimestamp : Int) (m : StopMap) (e : Entity) : StopMap :=
  match e.tripUpdate with
  | none => m
  | some tripUpdate =>
    match tripUpdate.trip.bind Trip.routeId, tripUpdate.stopTimeUpdate with
    | none, _ => m
    | some _, none => m
    | some rawRouteId, some stopTimeUpdates =>
      if rawRouteId = "" then m
      else
        stopTimeUpdates.foldl
          (processStopUpdateFull nowTimestamp (stripRouteSuffix rawRouteId)) m

/-- The reference pipeline that scans the entire feed to exhaustion (no
early exit), against which the early-exit heuristic is compared. -/
def processGTFSDataFull (gtfsData : Feed) (requestedStopIds : List String)
    (nowTimestamp : Int) : List StopResult :=
  match gtfsData.entity with
  | none => formatResults (seedMap requestedStopIds) nowTimestamp
  | some entities =>
    formatResults (entities.foldl (processEntityFull nowTimestamp) (seedMap requestedStopIds))
      nowTimestamp

/-- A hypothetical pipeline that re-samples the clock: the scan uses one
"now" instant and the formatting another.  The source pipeline is the
diagonal of this function, witnessing that "now" is captured once and used
consistently. -/
def processGTFSDataResampled (gtfsData : Feed) (requestedStopIds : List String)
    (nowScan nowFormat : Int) : List StopResult :=
  match gtfsData.entity with
  | none => formatResults (seedMap requestedStopIds) nowFormat
  | some entities =>
    formatResults
      ((entities.foldl (processEntity nowScan) (initState requestedStopIds)).stopArrivals)
      nowFormat

/-- The scan ran to exhaustion: the early exit never fired on this feed. -/
def scanExhausted (gtfsData : Feed) (requestedStopIds : List String)
    (nowTimestamp : Int) : Prop :=
  ∀ es, gtfsData.entity = some es →
    (es.foldl (processEntity nowTimestamp) (initState requestedStopIds)).done = false

/-- All stop ids mentioned by stop-time updates anywhere in the feed. -/
def feedStopIds (gtfsData : Feed) : List String :=
  match gtfsData.entity with
  | none => []
  | some es =>
    es.flatMap (fun e =>
      match e.tripUpdate with
      | none => []
      | some tu =>
        match tu.stopTimeUpdate with
        | none => []
        | some sus => sus.filterMap StopTimeUpdate.stopId)

/-- Every candidate sitting in any buffer of the map satisfies `P`. -/
def BuffersSat (P : Candidate → Prop) (m : StopMap) : Prop :=
  ∀ e ∈ m, ∀ c ∈ (e : String × List Candidate).2, P c

/-- A single entity on route "28-VIC" carrying one future arrival (150
seconds after a "now" of 0) at stop "101028". -/
def demoEntity : Entity :=
  ⟨some ⟨some ⟨some ("28-VIC")⟩, some [⟨some ("101028"), some ⟨150, none⟩⟩]⟩⟩

/-- A feed with the single trip update `demoEntity`. -/
def demoFeed : Feed := ⟨some [demoEntity]⟩

/-- A feed whose single trip update has a raw route id beginning with the
separator character. -/
def demoFeedDash : Feed :=
  ⟨some [⟨some ⟨some ⟨some ("-VIC")⟩, some [⟨some ("101028"), some ⟨150, none⟩⟩]⟩⟩]⟩

/-- A feed whose single trip update carries, for the one requested stop,
first MAX_ARRIVALS * 3 arrivals at 3540 seconds out and then one arrival
only 60 seconds out: the early exit fires after the 24th candidate and the
nearest arrival is never scanned. -/
def overflowFeed : Feed :=
  ⟨some [⟨some ⟨some ⟨some ("28-VIC")⟩,
    some (List.replicate (MAX_ARRIVALS * 3) ⟨some ("S"), some ⟨3540, none⟩⟩ ++
      [⟨some ("S"), some ⟨60, none⟩⟩])⟩⟩]⟩

/-! ### Association-map lemmas -/

theorem mapGet_mapSet_self : ∀ (m : StopMap) (k : String) (v : List Candidate),
    mapGet (mapSet m k v) k = some v
  | [], k, v => by simp [mapSet, mapGet]
  | e :: rest, k, v => by
    by_cases h : e.1 = k
    · simp [mapSet, h, mapGet]
    · simp [mapSet, h, mapGet, mapGet_mapSet_self rest k v]

theorem mapGet_mapSet_ne : ∀ (m : StopMap) {k k' : String} (v : List Candidate),
    k ≠ k' → mapGet (mapSet m k v) k' = mapGet m k'
  | [], k, k', v, h => by simp [mapSet, mapGet, h]
  | e :: rest, k, k', v, h => by
    by_cases he : e.1 = k
    · rw [mapSet, if_pos he, mapGet, mapGet, if_neg (he ▸ h), if_neg (by rw [he]; exact h)]
    · rw [mapSet, if_neg he, mapGet, mapGet]
      by_cases he' : e.1 = k'
      · rw [if_pos he', if_pos he']
      · rw [if_neg he', if_neg he', mapGet_mapSet_ne rest v h]

theorem mem_mapKeys_iff_isSome : ∀ {m : StopMap} {k : String},
    k ∈ mapKeys m ↔ (mapGet m k).isSome
  | [], k => by simp [mapKeys, mapGet]
  | e :: rest, k => by
    by_cases h : e.1 = k
    · simp [mapKeys, mapGet, h]
    · simp only [mapKeys, List.map_cons, List.mem_cons, mapGet, if_neg h]
      rw [← mapKeys]
      simp [Ne.symm h, mem_mapKeys_iff_isSome (m := rest)]

theorem mapHas_iff_mem_keys {m : StopMap} {k : String} :
    mapHas m k = true ↔ k ∈ mapKeys m := by
  rw [mapHas, mem_mapKeys_iff_isSome]

theorem mapKeys_mapSet_of_mem : ∀ (m : StopMap) {k : String} (v : List Candidate),
    k ∈ mapKeys m → mapKeys (mapSet m k v) = mapKeys m
  | [], k, v, h => by simp [mapKeys] at h
  | e :: rest, k, v, h => by
    by_cases he : e.1 = k
    · simp [mapSet, if_pos he, mapKeys, he]
    · simp only [mapKeys, List.map_cons, List.mem_cons] at h
      rcases h with h | h
      · exact absurd h.symm he
      · simp only [mapSet, if_neg he, mapKeys, List.map_cons]
        rw [← mapKeys, ← mapKeys, mapKeys_mapSet_of_mem rest v h]

theorem mapKeys_mapSet_of_not_mem : ∀ (m : StopMap) {k : String} (v : List Candidate),
    k ∉ mapKeys m → mapKeys (mapSet m k v) = mapKeys m ++ [k]
  | [], k, v, _ => by simp [mapSet, mapKeys]
  | e :: rest, k, v, h => by
    simp only [mapKeys, List.map_cons, List.mem_cons, not_or] at h
    simp only [mapSet, if_neg (Ne.symm h.1), mapKeys, List.map_cons, List.cons_append]
    rw [← mapKeys, ← mapKeys, mapKeys_mapSet_of_not_mem rest v h.2]

theorem mem_of_mem_mapSet : ∀ {m : StopMap} {k : String} {v : List Candidate}
    {e : String × List Candidate}, e ∈ mapSet m k v → e = (k, v) ∨ e ∈ m
  | [], k, v, e, h => by simpa [mapSet] using h
  | e' :: rest, k, v, e, h => by
    by_cases he : e'.1 = k
    · rw [mapSet, if_pos he] at h
      rcases List.mem_cons.mp h with h | h
      · exact Or.inl h
      · exact Or.inr (List.mem_cons_of_mem _ h)
    · rw [mapSet, if_neg he] at h
      rcases List.mem_cons.mp h with h | h
      · exact Or.inr (by simp [h])
      · rcases mem_of_mem_mapSet h with h' | h'
        · exact Or.inl h'
        · exact Or.inr (List.mem_cons_of_mem _ h')

theorem mapGet_of_mem_of_nodup : ∀ {m : StopMap} {k : String} {v : List Candidate},
    (mapKeys m).Nodup → (k, v) ∈ m → mapGet m k = some v
  | [], k, v, _, h => by simp at h
  | e :: rest, k, v, hnd, h => by
    simp only [mapKeys, List.map_cons, List.nodup_cons] at hnd
    rcases List.mem_cons.mp h with h | h
    · simp [mapGet, ← h]
    · have hk : e.1 ≠ k := by
        intro he
        exact hnd.1 (he ▸ (List.mem_map.mpr ⟨(k, v), h, rfl⟩))
      rw [mapGet, if_neg hk]
      exact mapGet_of_mem_of_nodup hnd.2 h

theorem mem_of_mapGet_eq_some : ∀ {m : StopMap} {k : String} {v : List Candidate},
    mapGet m k = some v → (k, v) ∈ m
  | [], k, v, h => by simp [mapGet] at h
  | e :: rest, k, v, h => by
    by_cases he : e.1 = k
    · rw [mapGet, if_pos he, Option.some.injEq] at h
      exact List.mem_cons.mpr (Or.inl (by cases e; simp_all))
    · rw [mapGet, if_neg he] at h
      exact List.mem_cons_of_mem _ (mem_of_mapGet_eq_some h)

/-! ### Seed-map lemmas -/

theorem mapGet_seed_aux : ∀ (req : List String) (m : StopMap) (k : String),
    mapGet (req.foldl (fun m s => mapSet m s []) m) k =
      if k ∈ req then some [] else mapGet m k
  | [], m, k => by simp
  | s :: rest, m, k => by
    rw [List.foldl_cons, mapGet_seed_aux rest]
    by_cases hk : k ∈ rest
    · simp [hk, List.mem_cons]
    · by_cases hks : k = s
      · simp [hk, hks, mapGet_mapSet_self]
      · simp [hk, hks, mapGet_mapSet_ne _ _ (Ne.symm hks)]

theorem mapGet_seedMap (req : List String) (k : String) :
    mapGet (seedMap req) k = if k ∈ req then some [] else none := by
  rw [seedMap, mapGet_seed_aux]
  rfl

theorem mem_keys_seedMap {req : List String} {k : String} :
    k ∈ mapKeys (seedMap req) ↔ k ∈ req := by
  rw [mem_mapKeys_iff_isSome, mapGet_seedMap]
  by_cases h : k ∈ req <;> simp [h]

theorem mapKeys_seed_aux : ∀ (req : List String) (m : StopMap),
    req.Nodup → (∀ s ∈ req, s ∉ mapKeys m) →
      mapKeys (req.foldl (fun m s => mapSet m s []) m) = mapKeys m ++ req
  | [], m, _, _ => by simp
  | s :: rest, m, hnd, hdisj => by
    simp only [List.nodup_cons] at hnd
    have hs : s ∉ mapKeys m := hdisj s (List.mem_cons_self s rest)
    rw [List.foldl_cons, mapKeys_seed_aux rest _ hnd.2, mapKeys_mapSet_of_not_mem _ _ hs]
    · simp
    · intro x hx
      rw [mapKeys_mapSet_of_not_mem _ _ hs]
      simp only [List.mem_append, List.mem_singleton, not_or]
      exact ⟨hdisj x (List.mem_cons_of_mem _ hx), fun hxs => hnd.1 (hxs ▸ hx)⟩

theorem mapKeys_seedMap_of_nodup {req : List String} (hnd : req.Nodup) :
    mapKeys (seedMap req) = req := by
  rw [seedMap, mapKeys_seed_aux req [] hnd (by intro s _hs; simp [mapKeys])]
  simp [mapKeys]

theorem nodup_keys_seed_aux : ∀ (req : List String) (m : StopMap),
    (mapKeys m).Nodup → (mapKeys (req.foldl (fun m s => mapSet m s []) m)).Nodup
  | [], _, h => h
  | s :: rest, m, h => by
    rw [List.foldl_cons]
    apply nodup_keys_seed_aux rest
    by_cases hs : s ∈ mapKeys m
    · rwa [mapKeys_mapSet_of_mem _ _ hs]
    · rw [mapKeys_mapSet_of_not_mem _ _ hs, List.nodup_append]
      exact ⟨h, List.nodup_singleton s, by simpa [List.disjoint_singleton] using hs⟩

theorem nodup_mapKeys_seedMap (req : List String) : (mapKeys (seedMap req)).Nodup := by
  rw [seedMap]
  exact nodup_keys_seed_aux req [] (by simp [mapKeys])

theorem seed_entry_empty_aux : ∀ (req : List String) (m : StopMap),
    (∀ e ∈ m, (e : String × List Candidate).2 = []) →
      ∀ e ∈ req.foldl (fun m s => mapSet m s []) m, (e : String × List Candidate).2 = []
  | [], _, hm, e, he => hm e he
  | s :: rest, m, hm, e, he => by
    rw [List.foldl_cons] at he
    refine seed_entry_empty_aux rest _ ?_ e he
    intro e' he'
    rcases mem_of_mem_mapSet he' with h' | h'
    · simp [h']
    · exact hm e' h'

theorem seed_entry_empty {req : List String} {e : String × List Candidate}
    (h : e ∈ seedMap req) : e.2 = [] :=
  seed_entry_empty_aux req [] (by intro e' he'; simp at he') e h

/-! ### Scan-state lemmas -/

theorem processStopUpdate_of_done {now : Int} {rid : String} {st : ScanState}
    {su : StopTimeUpdate} (h : st.done = true) :
    processStopUpdate now rid st su = st := by
  simp [processStopUpdate, h]

theorem foldl_processStopUpdate_of_done {now : Int} {rid : String} :
    ∀ (sus : List StopTimeUpdate) (st : ScanState), st.done = true →
      sus.foldl (processStopUpdate now rid) st = st
  | [], _, _ => rfl
  | su :: rest, st, h => by
    rw [List.foldl_cons, processStopUpdate_of_done h,
      foldl_processStopUpdate_of_done rest st h]

theorem processEntity_of_done {now : Int} {st : ScanState} {e : Entity}
    (h : st.done = true) : processEntity now st e = st := by
  simp [processEntity, h]

theorem foldl_processEntity_of_done {now : Int} :
    ∀ (es : List Entity) (st : ScanState), st.done = true →
      es.foldl (processEntity now) st = st
  | [], _, _ => rfl
  | e :: rest, st, h => by
    rw [List.foldl_cons, processEntity_of_done h, foldl_processEntity_of_done rest st h]

theorem processStopUpdate_map_eq_full {now : Int} {rid : String} {st : ScanState}
    {su : StopTimeUpdate} (h : st.done = false) :
    (processStopUpdate now rid st su).stopArrivals =
      processStopUpdateFull now rid st.stopArrivals su := by
  rw [processStopUpdate, processStopUpdateFull]
  simp only [h, Bool.false_eq_true, if_false]
  cases su.stopId with
  | none => rfl
  | some k =>
    by_cases hk : mapHas st.stopArrivals k
    · simp only [hk, if_true]
      cases su.arrival with
      | none => rfl
      | some arr =>
        by_cases h0 : arr.time = 0
        · simp [h0]
        · by_cases hle : arr.time ≤ now
          · simp [h0, hle]
          · simp only [h0, hle, if_false]
            split <;> rfl
    · simp [hk]

theorem foldl_processStopUpdate_map_eq_full {now : Int} {rid : String} :
    ∀ (sus : List StopTimeUpdate) (st : ScanState), st.done = false →
      (sus.foldl (processStopUpdate now rid) st).done = false →
      (sus.foldl (processStopUpdate now rid) st).stopArrivals =
        sus.foldl (processStopUpdateFull now rid) st.stopArrivals
  | [], _, _, _ => rfl
  | su :: rest, st, h, hfin => by
    rw [List.foldl_cons] at hfin ⊢
    by_cases h1 : (processStopUpdate now rid st su).done
    · rw [foldl_processStopUpdate_of_done rest _ h1] at hfin
      exact absurd hfin (by simp [h1])
    · rw [foldl_processStopUpdate_map_eq_full rest _ (by simpa using h1) hfin,
        List.foldl_cons, processStopUpdate_map_eq_full h]

theorem processEntity_map_eq_full {now : Int} {st : ScanState} {e : Entity}
    (h : st.done = false) (hfin : (processEntity now st e).done = false) :
    (processEntity now st e).stopArrivals = processEntityFull now st.stopArrivals e := by
  cases hE : e.tripUpdate with
  | none => simp [processEntity, processEntityFull, h, hE]
  | some tu =>
    cases hR : tu.trip.bind Trip.routeId with
    | none => simp [processEntity, processEntityFull, h, hE, hR]
    | some raw =>
      cases hS : tu.stopTimeUpdate with
      | none => simp [processEntity, processEntityFull, h, hE, hR, hS]
      | some sus =>
        by_cases hraw : raw = ""
        · simp [processEntity, processEntityFull, h, hE, hR, hS, hraw]
        · simp only [processEntity, h, Bool.false_eq_true, if_false, hE, hR, hS, hraw] at hfin
          simp only [processEntity, processEntityFull, h, Bool.false_eq_true, if_false,
            hE, hR, hS, hraw]
          by_cases hz :
              (sus.foldl (processStopUpdate now (stripRouteSuffix raw)) st).stopsNeedingMore = 0
          · rw [if_pos hz] at hfin
            exact absurd hfin (by simp)
          · rw [if_neg hz] at hfin ⊢
            exact foldl_processStopUpdate_map_eq_full sus st h hfin

theorem foldl_processEntity_map_eq_full {now : Int} :
    ∀ (es : List Entity) (st : ScanState), st.done = false →
      (es.foldl (processEntity now) st).done = false →
      (es.foldl (processEntity now) st).stopArrivals =
        es.foldl (processEntityFull now) st.stopArrivals
  | [], _, _, _ => rfl
  | e :: rest, st, h, hfin => by
    rw [List.foldl_cons] at hfin ⊢
    by_cases h1 : (processEntity now st e).done
    · rw [foldl_processEntity_of_done rest _ h1] at hfin
      exact absurd hfin (by simp [h1])
    · rw [foldl_processEntity_map_eq_full rest _ (by simpa using h1) hfin,
        List.foldl_cons, processEntity_map_eq_full h (by simpa using h1)]

theorem mapKeys_processStopUpdate (now : Int) (rid : String) (st : ScanState)
    (su : StopTimeUpdate) :
    mapKeys (processStopUpdate now rid st su).stopArrivals = mapKeys st.stopArrivals := by
  by_cases h : st.done
  · rw [processStopUpdate_of_done h]
  · rcases su with ⟨sid, arrOpt⟩
    cases sid with
    | none => simp [processStopUpdate, h]
    | some k =>
      by_cases hk : mapHas st.stopArrivals k
      · cases arrOpt with
        | none => simp [processStopUpdate, h, hk]
        | some arr =>
          by_cases h0 : arr.time = 0
          · simp [processStopUpdate, h, hk, h0]
          · by_cases hle : arr.time ≤ now
            · simp [processStopUpdate, h, hk, h0, hle]
            · have hmem : k ∈ mapKeys st.stopArrivals := mapHas_iff_mem_keys.mp hk
              simp only [processStopUpdate, h, Bool.false_eq_true, if_false, hk, if_true,
                h0, hle]
              split <;> exact mapKeys_mapSet_of_mem _ _ hmem
      · simp [processStopUpdate, h, hk]

theorem mapKeys_foldl_processStopUpdate (now : Int) (rid : String) :
    ∀ (sus : List StopTimeUpdate) (st : ScanState),
      mapKeys (sus.foldl (processStopUpdate now rid) st).stopArrivals =
        mapKeys st.stopArrivals
  | [], _ => rfl
  | su :: rest, st => by
    rw [List.foldl_cons, mapKeys_foldl_processStopUpdate now rid rest,
      mapKeys_processStopUpdate]

theorem mapKeys_processEntity (now : Int) (st : ScanState) (e : Entity) :
    mapKeys (processEntity now st e).stopArrivals = mapKeys st.stopArrivals := by
  by_cases h : st.done = true
  · rw [processEntity_of_done h]
  · rw [Bool.not_eq_true] at h
    cases hE : e.tripUpdate with
    | none => simp [processEntity, h, hE]
    | some tu =>
      cases hR : tu.trip.bind Trip.routeId with
      | none => simp [processEntity, h, hE, hR]
      | some raw =>
        cases hS : tu.stopTimeUpdate with
        | none => simp [processEntity, h, hE, hR, hS]
        | some sus =>
          by_cases hraw : raw = ""
          · simp [processEntity, h, hE, hR, hS, hraw]
          · simp only [processEntity, h, Bool.false_eq_true, if_false, hE, hR, hS, hraw]
            split
            · exact mapKeys_foldl_processStopUpdate now _ sus st
            · exact mapKeys_foldl_processStopUpdate now _ sus st

theorem mapKeys_foldl_processEntity (now : Int) :
    ∀ (es : List Entity) (st : ScanState),
      mapKeys (es.foldl (processEntity now) st).stopArrivals = mapKeys st.stopArrivals
  | [], _ => rfl
  | e :: rest, st => by
    rw [List.foldl_cons, mapKeys_foldl_processEntity now rest, mapKeys_processEntity]

theorem formatResults_stopIds (m : StopMap) (now : Int) :
    (formatResults m now).map StopResult.stopId = mapKeys m := by
  simp [formatResults, mapKeys, List.map_map]

theorem mapGet_processStopUpdate_ne {now : Int} {rid : String} {st : ScanState}
    {su : StopTimeUpdate} {k : String} (h : ∀ s, su.stopId = some s → s ≠ k) :
    mapGet (processStopUpdate now rid st su).stopArrivals k = mapGet st.stopArrivals k := by
  by_cases hd : st.done = true
  · rw [processStopUpdate_of_done hd]
  · rw [Bool.not_eq_true] at hd
    cases hsid : su.stopId with
    | none => simp [processStopUpdate, hd, hsid]
    | some s =>
      have hs : s ≠ k := h s hsid
      by_cases hk : mapHas st.stopArrivals s
      · cases harr : su.arrival with
        | none => simp [processStopUpdate, hd, hsid, hk, harr]
        | some arr =>
          by_cases h0 : arr.time = 0
          · simp [processStopUpdate, hd, hsid, hk, harr, h0]
          · by_cases hle : arr.time ≤ now
            · simp [processStopUpdate, hd, hsid, hk, harr, h0, hle]
            · simp only [processStopUpdate, hd, Bool.false_eq_true, if_false, hsid,
                hk, if_true, harr, h0, hle]
              split <;> exact mapGet_mapSet_ne _ _ hs
      · simp [processStopUpdate, hd, hsid, hk]

theorem mapGet_foldl_processStopUpdate_ne {now : Int} {rid : String} {k : String} :
    ∀ (sus : List StopTimeUpdate) (st : ScanState),
      (∀ su ∈ sus, ∀ s, su.stopId = some s → s ≠ k) →
      mapGet (sus.foldl (processStopUpdate now rid) st).stopArrivals k =
        mapGet st.stopArrivals k
  | [], _, _ => rfl
  | su :: rest, st, h => by
    rw [List.foldl_cons,
      mapGet_foldl_processStopUpdate_ne rest _ (fun u hu => h u (List.mem_cons_of_mem _ hu)),
      mapGet_processStopUpdate_ne (h su (List.mem_cons_self su rest))]

theorem mapGet_processEntity_ne {now : Int} {st : ScanState} {e : Entity} {k : String}
    (h : ∀ tu sus su, e.tripUpdate = some tu → tu.stopTimeUpdate = some sus → su ∈ sus →
      ∀ s, su.stopId = some s → s ≠ k) :
    mapGet (processEntity now st e).stopArrivals k = mapGet st.stopArrivals k := by
  by_cases hd : st.done = true
  · rw [processEntity_of_done hd]
  · rw [Bool.not_eq_true] at hd
    cases hE : e.tripUpdate with
    | none => simp [processEntity, hd, hE]
    | some tu =>
      cases hR : tu.trip.bind Trip.routeId with
      | none => simp [processEntity, hd, hE, hR]
      | some raw =>
        cases hS : tu.stopTimeUpdate with
        | none => simp [processEntity, hd, hE, hR, hS]
        | some sus =>
          by_cases hraw : raw = ""
          · simp [processEntity, hd, hE, hR, hS, hraw]
          · simp only [processEntity, hd, Bool.false_eq_true, if_false, hE, hR, hS, hraw]
            have hsus := @mapGet_foldl_processStopUpdate_ne now (stripRouteSuffix raw) k sus st
              (fun su hsu => h tu sus su hE hS hsu)
            split <;> exact hsus

theorem mapGet_foldl_processEntity_ne {now : Int} {k : String} :
    ∀ (es : List Entity) (st : ScanState),
      (∀ e ∈ es, ∀ tu sus su, (e : Entity).tripUpdate = some tu →
        tu.stopTimeUpdate = some sus → su ∈ sus → ∀ s, su.stopId = some s → s ≠ k) →
      mapGet (es.foldl (processEntity now) st).stopArrivals k = mapGet st.stopArrivals k
  | [], _, _ => rfl
  | e :: rest, st, h => by
    rw [List.foldl_cons,
      mapGet_foldl_processEntity_ne rest _ (fun x hx => h x (List.mem_cons_of_mem _ hx)),
      mapGet_processEntity_ne (h e (List.mem_cons_self e rest))]

theorem not_mem_feedStopIds {feed : Feed} {k : String} {es : List Entity}
    (hent : feed.entity = some es) (hk : k ∉ feedStopIds feed) :
    ∀ e ∈ es, ∀ tu sus su, (e : Entity).tripUpdate = some tu →
      tu.stopTimeUpdate = some sus → su ∈ sus → ∀ s, su.stopId = some s → s ≠ k := by
  intro e he tu sus su hE hS hsu s hs hsk
  apply hk
  rw [feedStopIds, hent]
  refine List.mem_flatMap.mpr ⟨e, he, ?_⟩
  simp only [hE, hS]
  exact List.mem_filterMap.mpr ⟨su, hsu, by rw [hs, hsk]⟩

/-! ### Buffer-content invariants -/

theorem buffersSat_seedMap (P : Candidate → Prop) (req : List String) :
    BuffersSat P (seedMap req) := by
  intro e he c hc
  rw [seed_entry_empty he] at hc
  simp at hc

theorem buffersSat_processStopUpdate {P : Candidate → Prop} {now : Int} {rid : String}
    {st : ScanState} {su : StopTimeUpdate} (hP : ∀ t d : Int, P ⟨rid, t, d⟩)
    (h : BuffersSat P st.stopArrivals) :
    BuffersSat P (processStopUpdate now rid st su).stopArrivals := by
  by_cases hd : st.done = true
  · rwa [processStopUpdate_of_done hd]
  · rw [Bool.not_eq_true] at hd
    cases hsid : su.stopId with
    | none => simpa [processStopUpdate, hd, hsid] using h
    | some s =>
      by_cases hk : mapHas st.stopArrivals s
      · cases harr : su.arrival with
        | none => simpa [processStopUpdate, hd, hsid, hk, harr] using h
        | some arr =>
          by_cases h0 : arr.time = 0
          · simpa [processStopUpdate, hd, hsid, hk, harr, h0] using h
          · by_cases hle : arr.time ≤ now
            · simpa [processStopUpdate, hd, hsid, hk, harr, h0, hle] using h
            · simp only [processStopUpdate, hd, Bool.false_eq_true, if_false, hsid,
                hk, if_true, harr, h0, hle]
              have hnew : BuffersSat P (mapSet st.stopArrivals s
                  ((mapGet st.stopArrivals s).getD [] ++ [⟨rid, arr.time, arr.delay.getD 0⟩])) := by
                intro e he c hc
                rcases mem_of_mem_mapSet he with he' | he'
                · rw [he'] at hc
                  simp only at hc
                  rcases List.mem_append.mp hc with hc' | hc'
                  · cases hget : mapGet st.stopArrivals s with
                    | none => rw [hget] at hc'; simp at hc'
                    | some buf =>
                      rw [hget] at hc'
                      exact h _ (mem_of_mapGet_eq_some hget) c hc'
                  · rw [List.mem_singleton.mp hc']
                    exact hP arr.time (arr.delay.getD 0)
                · exact h e he' c hc
              split <;> exact hnew
      · simpa [processStopUpdate, hd, hsid, hk] using h

theorem buffersSat_foldl_processStopUpdate {P : Candidate → Prop} {now : Int} {rid : String}
    (hP : ∀ t d : Int, P ⟨rid, t, d⟩) :
    ∀ (sus : List StopTimeUpdate) (st : ScanState), BuffersSat P st.stopArrivals →
      BuffersSat P (sus.foldl (processStopUpdate now rid) st).stopArrivals
  | [], _, h => h
  | su :: rest, st, h => by
    rw [List.foldl_cons]
    exact buffersSat_foldl_processStopUpdate hP rest _ (buffersSat_processStopUpdate hP h)

theorem buffersSat_processEntity {P : Candidate → Prop} {now : Int} {st : ScanState}
    {e : Entity} (hP : ∀ (raw : String) (t d : Int), P ⟨stripRouteSuffix raw, t, d⟩)
    (h : BuffersSat P st.stopArrivals) :
    BuffersSat P (processEntity now st e).stopArrivals := by
  by_cases hd : st.done = true
  · rwa [processEntity_of_done hd]
  · rw [Bool.not_eq_true] at hd
    cases hE : e.tripUpdate with
    | none => simpa [processEntity, hd, hE] using h
    | some tu =>
      cases hR : tu.trip.bind Trip.routeId with
      | none => simpa [processEntity, hd, hE, hR] using h
      | some raw =>
        cases hS : tu.stopTimeUpdate with
        | none => simpa [processEntity, hd, hE, hR, hS] using h
        | some sus =>
          by_cases hraw : raw = ""
          · simpa [processEntity, hd, hE, hR, hS, hraw] using h
          · simp only [processEntity, hd, Bool.false_eq_true, if_false, hE, hR, hS, hraw]
            have hsus := @buffersSat_foldl_processStopUpdate P now (stripRouteSuffix raw)
              (hP raw) sus st h
            split <;> exact hsus

theorem buffersSat_foldl_processEntity {P : Candidate → Prop} {now : Int}
    (hP : ∀ (raw : String) (t d : Int), P ⟨stripRouteSuffix raw, t, d⟩) :
    ∀ (es : List Entity) (st : ScanState), BuffersSat P st.stopArrivals →
      BuffersSat P (es.foldl (processEntity now) st).stopArrivals
  | [], _, h => h
  | e :: rest, st, h => by
    rw [List.foldl_cons]
    exact buffersSat_foldl_processEntity hP rest _ (buffersSat_processEntity hP h)

/-! ### Route-suffix lemmas -/

theorem stripRouteSuffix_no_dash (s : String) :
    ∀ c ∈ (stripRouteSuffix s).data, c ≠ '-' := by
  intro c hc
  have h := List.mem_takeWhile_imp (p := (· != '-')) (l := s.data) hc
  simpa using h

theorem stripRouteSuffix_decomp (s : String) :
    s.data = (stripRouteSuffix s).data ++ s.data.dropWhile (· != '-') := by
  rw [stripRouteSuffix]
  exact (List.takeWhile_append_dropWhile (p := (· != '-')) (l := s.data)).symm

theorem stripRouteSuffix_of_no_dash {s : String} (h : '-' ∉ s.data) :
    stripRouteSuffix s = s := by
  have hall : ∀ x ∈ s.data, (x != '-') = true := by
    intro c hc
    simp only [bne_iff_ne, ne_eq]
    intro hcd
    exact h (hcd ▸ hc)
  rw [stripRouteSuffix, List.takeWhile_eq_self_iff.mpr hall]

theorem stripRouteSuffix_idem (s : String) :
    stripRouteSuffix (stripRouteSuffix s) = stripRouteSuffix s :=
  stripRouteSuffix_of_no_dash (fun h => stripRouteSuffix_no_dash s _ h rfl)

theorem stripRouteSuffix_of_head_dash {s : String} (h : s.data.head? = some '-') :
    stripRouteSuffix s = "" := by
  rw [stripRouteSuffix]
  cases hd : s.data with
  | nil => rw [hd] at h; simp at h
  | cons c rest =>
    rw [hd] at h
    simp only [List.head?_cons, Option.some.injEq] at h
    rw [h, List.takeWhile_cons_of_neg (by simp)]

/-! ### Stable-sort lemmas -/

theorem insertionSort_filter_ts (l : List Candidate) (t : Int) :
    (List.insertionSort candLE l).filter (fun a => a.arrivalTimestamp == t) =
      l.filter (fun a => a.arrivalTimestamp == t) := by
  have hpw : (l.filter (fun a => a.arrivalTimestamp == t)).Pairwise candLE := by
    apply List.pairwise_of_forall_mem_list
    intro a ha b hb
    have ha' := (List.mem_filter.mp ha).2
    have hb' := (List.mem_filter.mp hb).2
    simp only [beq_iff_eq] at ha' hb'
    rw [candLE, ha', hb']
  have hsub : List.Sublist (l.filter (fun a => a.arrivalTimestamp == t))
      (List.insertionSort candLE l) :=
    List.sublist_insertionSort hpw (List.filter_sublist l)
  have hsub2 : List.Sublist (l.filter (fun a => a.arrivalTimestamp == t))
      ((List.insertionSort candLE l).filter (fun a => a.arrivalTimestamp == t)) := by
    have h2 := hsub.filter (fun a => a.arrivalTimestamp == t)
    rw [List.filter_filter] at h2
    simpa only [Bool.and_self] using h2
  have hperm : List.Perm
      ((List.insertionSort candLE l).filter (fun a => a.arrivalTimestamp == t))
      (l.filter (fun a => a.arrivalTimestamp == t)) :=
    (List.perm_insertionSort candLE l).filter (fun a => a.arrivalTimestamp == t)
  exact (hsub2.eq_of_length hperm.length_eq.symm).symm

theorem mem_formatResults {m : StopMap} {now : Int} {entry : StopResult} :
    entry ∈ formatResults m now ↔
      ∃ e ∈ m, entry = ⟨(e : String × List Candidate).1,
        ((List.insertionSort candLE (e : String × List Candidate).2).take MAX_ARRIVALS).map
          (formatCandidate now)⟩ := by
  rw [formatResults, List.mem_map]
  constructor
  · rintro ⟨e, he, rfl⟩
    exact ⟨e, he, rfl⟩
  · rintro ⟨e, he, rfl⟩
    exact ⟨e, he, rfl⟩

theorem arrivals_of_mem_formatResults {m : StopMap} {now : Int} {entry : StopResult}
    {a : FormattedArrival} (hentry : entry ∈ formatResults m now)
    (ha : a ∈ entry.arrivals) :
    ∃ e ∈ m, ∃ c ∈ (e : String × List Candidate).2, a = formatCandidate now c := by
  rcases mem_formatResults.mp hentry with ⟨e, he, rfl⟩
  simp only [List.mem_map] at ha
  rcases ha with ⟨c, hc, rfl⟩
  have hc1 : c ∈ List.insertionSort candLE e.2 := List.mem_of_mem_take hc
  exact ⟨e, he, c, (List.mem_insertionSort candLE).mp hc1, rfl⟩

/-! ### Formatter string lemmas -/

theorem pad2_length {n : Int} (h0 : 0 ≤ n) (h : n < 60) : (pad2 n).length = 2 := by
  interval_cases n <;> decide

theorem toLocaleTimeStringPacific_parts (ts : Int) :
    ∃ h12 mm : Int, ∃ marker : String,
      toLocaleTimeStringPacific ts = toString h12 ++ ":" ++ pad2 mm ++ " " ++ marker ∧
      1 ≤ h12 ∧ h12 ≤ 12 ∧ 0 ≤ mm ∧ mm < 60 ∧ (marker = "AM" ∨ marker = "PM") := by
  simp only [toLocaleTimeStringPacific]
  set off : Int := if pacificDst ts then -25200 else -28800 with hoff
  set so : Int := (ts + off).emod 86400 with hso
  have h1 : 0 ≤ so := Int.emod_nonneg _ (by norm_num)
  have h2 : so < 86400 := Int.emod_lt_of_pos _ (by norm_num)
  refine ⟨_, _, _, rfl, ?_, ?_, ?_, ?_, ?_⟩
  · split <;> omega
  · split <;> omega
  · omega
  · omega
  · split
    · exact Or.inl rfl
    · exact Or.inr rfl

theorem toLocaleTimeStringPacific_length (ts : Int) :
    7 ≤ (toLocaleTimeStringPacific ts).length := by
  obtain ⟨h12, mm, marker, heq, hh1, hh2, hm1, hm2, hmk⟩ := toLocaleTimeStringPacific_parts ts
  rw [heq]
  simp only [String.length_append]
  have l1 : 1 ≤ (toString h12).length := by interval_cases h12 <;> decide
  have l2 : (pad2 mm).length = 2 := pad2_length hm1 hm2
  have l3 : marker.length = 2 := by rcases hmk with h | h <;> rw [h] <;> decide
  have l4 : (":" : String).length = 1 := by decide
  have l5 : (" " : String).length = 1 := by decide
  omega

theorem jsToLowerCase_length (s : String) : (jsToLowerCase s).length = s.length := by
  rw [jsToLowerCase]
  show (String.mk (s.data.map Char.toLower)).length = s.length
  rw [String.length_mk, List.length_map]
  rfl

theorem max_minutes_bounds {u : Int} (hu : u < 60) (hm : max 0 u ≠ 0) :
    1 ≤ max 0 u ∧ max 0 u < 60 := by
  rcases le_total u 0 with h | h
  · exact absurd (max_eq_left h) hm
  · rw [max_eq_right h] at hm ⊢
    omega

theorem formatArrivalTime_ne_zero_min (t n : Int) : formatArrivalTime t n ≠ "0 min" := by
  dsimp only [formatArrivalTime]
  split
  · split
    · decide
    · rename_i hlt hm
      obtain ⟨h1, h2⟩ := max_minutes_bounds hlt hm
      set m := max 0 ((t - n).fdiv 60) with hmdef
      clear_value m
      interval_cases m <;> decide
  · intro hcontra
    have hlen := congrArg String.length hcontra
    rw [jsToLowerCase_length] at hlen
    have h7 := toLocaleTimeStringPacific_length t
    have h5 : ("0 min" : String).length = 5 := by decide
    omega

theorem formatArrivalTimeSingleStop_ne_zero_m (t n : Int) :
    formatArrivalTimeSingleStop t n ≠ "0 m" := by
  dsimp only [formatArrivalTimeSingleStop]
  split
  · split
    · decide
    · rename_i hlt hm
      obtain ⟨h1, h2⟩ := max_minutes_bounds hlt hm
      set m := max 0 ((t - n).fdiv 60) with hmdef
      clear_value m
      interval_cases m <;> decide
  · intro hcontra
    have hlen := congrArg String.length hcontra
    rw [jsToLowerCase_length] at hlen
    have h7 := toLocaleTimeStringPacific_length t
    have h5 : ("0 m" : String).length = 3 := by decide
    omega

/-! ### Claim theorems -/

/-- C1, counterexample: the early-exit heuristic does NOT always produce
the same output as scanning the feed to exhaustion.  On `overflowFeed`
(24 admitted candidates 59 minutes out followed by one candidate 1 minute
out, all for the single requested stop), the heuristic stops after the
24th candidate and its top-8 omits the 1-minute arrival that the full
scan ranks first. -/
theorem early_exit_drops_data :
    processGTFSData overflowFeed [("S")] 0 ≠ processGTFSDataFull overflowFeed [("S")] 0 := by
  decide

/-- C1, amended: the early-exit heuristic is a pure work-pruning
refinement of the full scan ONLY when it never fires, that is, when the
scan exhausts the feed before every requested stop has accumulated
`MAX_ARRIVALS * 3` admitted candidates; in that case the two pipelines
produce identical output.  (When the exit does fire it can drop arrivals
that full-feed processing would have selected, as `early_exit_drops_data`
shows.) -/
theorem early_exit_refines_full_scan (feed : Feed) (req : List String) (now : Int)
    (h : scanExhausted feed req now) :
    processGTFSData feed req now = processGTFSDataFull feed req now := by
  cases hent : feed.entity with
  | none => simp only [processGTFSData, processGTFSDataFull, hent]
  | some es =>
    have hd := h es hent
    simp only [processGTFSData, processGTFSDataFull, hent]
    congr 1
    exact foldl_processEntity_map_eq_full es (initState req) rfl hd

/-- C1, witness: on `demoFeed` the scan runs to exhaustion and the two
pipelines agree. -/
theorem early_exit_refines_full_scan_witness :
    processGTFSData demoFeed [("101028")] 0 = processGTFSDataFull demoFeed [("101028")] 0 :=
  early_exit_refines_full_scan demoFeed [("101028")] 0 (by
    intro es hes
    have h2 : some [demoEntity] = some es := hes
    have h3 := Option.some.inj h2
    rw [← h3]
    decide)

/-- C2: for every feed (including an absent one) and duplicate-free
requested stop set, each requested stop id appears exactly once in the
output, in request order; and a stop id never mentioned by the feed (in
particular an unrecognized one) yields an empty arrivals list rather than
an error — the pipeline is total and still emits the entry. -/
theorem every_requested_stop_appears_once (feed : Feed) (req : List String) (now : Int)
    (hnd : req.Nodup) :
    (processGTFSData feed req now).map StopResult.stopId = req ∧
      ∀ entry ∈ processGTFSData feed req now,
        entry.stopId ∉ feedStopIds feed → entry.arrivals = [] := by
  constructor
  · cases hent : feed.entity with
    | none =>
      simp only [processGTFSData, hent]
      rw [formatResults_stopIds, mapKeys_seedMap_of_nodup hnd]
    | some es =>
      simp only [processGTFSData, hent]
      rw [formatResults_stopIds, mapKeys_foldl_processEntity]
      exact mapKeys_seedMap_of_nodup hnd
  · intro entry hentry hnot
    cases hent : feed.entity with
    | none =>
      simp only [processGTFSData, hent] at hentry
      rcases mem_formatResults.mp hentry with ⟨e, he, rfl⟩
      simp only
      rw [seed_entry_empty he]
      rfl
    | some es =>
      simp only [processGTFSData, hent] at hentry
      rcases mem_formatResults.mp hentry with ⟨e, he, rfl⟩
      simp only at hnot ⊢
      have hkeys : mapKeys ((es.foldl (processEntity now) (initState req)).stopArrivals) =
          mapKeys (seedMap req) := mapKeys_foldl_processEntity now es (initState req)
      have hnd2 : (mapKeys ((es.foldl (processEntity now) (initState req)).stopArrivals)).Nodup := by
        rw [hkeys]; exact nodup_mapKeys_seedMap req
      have hget : mapGet ((es.foldl (processEntity now) (initState req)).stopArrivals) e.1 =
          some e.2 := mapGet_of_mem_of_nodup hnd2 he
      have hpres : mapGet ((es.foldl (processEntity now) (initState req)).stopArrivals) e.1 =
          mapGet (initState req).stopArrivals e.1 :=
        mapGet_foldl_processEntity_ne es (initState req) (not_mem_feedStopIds hent hnot)
      rw [hget] at hpres
      have hseed : mapGet (seedMap req) e.1 = if e.1 ∈ req then some [] else none :=
        mapGet_seedMap req e.1
      rw [show (initState req).stopArrivals = seedMap req from rfl, hseed] at hpres
      by_cases hmem : e.1 ∈ req
      · rw [if_pos hmem] at hpres
        have he2 : e.2 = [] := by
          have := Option.some.inj hpres
          exact this
        rw [he2]
        rfl
      · rw [if_neg hmem] at hpres
        exact absurd hpres (by simp)

/-- C2, witness: with an absent feed and two distinct requested stops, the
output lists exactly those two stop ids. -/
theorem every_requested_stop_appears_once_witness :
    ([("A"), ("B")] : List String).Nodup ∧
      (processGTFSData ⟨none⟩ [("A"), ("B")] 0).map StopResult.stopId = [("A"), ("B")] :=
  ⟨by decide,
    (every_requested_stop_appears_once ⟨none⟩ [("A"), ("B")] 0 (by decide)).1⟩

/-- C3: for every stop's buffer of admitted candidates, the emitted
arrivals list is the image of the first `MAX_ARRIVALS` entries of the
buffer sorted by `arrivalTimestamp` ascending, where the sort is a
permutation, is sorted, and is stable (candidates with equal timestamps
keep their original feed order, expressed by filter-preservation per
timestamp); the emitted records carry only `routeId`, the formatted
`arriving` string and `deviation` — the internal `arrivalTimestamp` field
does not occur in the `FormattedArrival` shape. -/
theorem arrivals_sorted_truncated_stable (m : StopMap) (now : Int) (sid : String)
    (buf : List Candidate) (h : (sid, buf) ∈ m) :
    ∃ entry ∈ formatResults m now, entry.stopId = sid ∧
      ∃ sortedBuf : List Candidate, List.Perm sortedBuf buf ∧
        List.Sorted candLE sortedBuf ∧
        (∀ t : Int, sortedBuf.filter (fun a => a.arrivalTimestamp == t) =
          buf.filter (fun a => a.arrivalTimestamp == t)) ∧
        entry.arrivals = (sortedBuf.take MAX_ARRIVALS).map
          (fun a => ⟨a.routeId, formatArrivalTime a.arrivalTimestamp now, a.deviation⟩) := by
  refine ⟨⟨sid, ((List.insertionSort candLE buf).take MAX_ARRIVALS).map (formatCandidate now)⟩,
    mem_formatResults.mpr ⟨(sid, buf), h, rfl⟩, rfl,
    List.insertionSort candLE buf, List.perm_insertionSort candLE buf,
    List.sorted_insertionSort candLE buf, insertionSort_filter_ts buf, rfl⟩

/-- C3, witness: a two-candidate buffer with equal timestamps is emitted
in original order, truncated to at most 8, with formatted times. -/
theorem arrivals_sorted_truncated_stable_witness :
    ((("S"), [(⟨("28"), 100, 0⟩ : Candidate), ⟨("30"), 100, 5⟩]) ∈
      ([(("S"), [(⟨("28"), 100, 0⟩ : Candidate), ⟨("30"), 100, 5⟩])] : StopMap)) ∧
    ∃ entry ∈ formatResults [(("S"), [(⟨("28"), 100, 0⟩ : Candidate), ⟨("30"), 100, 5⟩])] 40,
      entry.stopId = ("S") ∧
      ∃ sortedBuf : List Candidate,
        List.Perm sortedBuf [(⟨("28"), 100, 0⟩ : Candidate), ⟨("30"), 100, 5⟩] ∧
        List.Sorted candLE sortedBuf ∧
        (∀ t : Int, sortedBuf.filter (fun a => a.arrivalTimestamp == t) =
          ([(⟨("28"), 100, 0⟩ : Candidate), ⟨("30"), 100, 5⟩]).filter
            (fun a => a.arrivalTimestamp == t)) ∧
        entry.arrivals = (sortedBuf.take MAX_ARRIVALS).map
          (fun a => ⟨a.routeId, formatArrivalTime a.arrivalTimestamp 40, a.deviation⟩) :=
  ⟨by decide,
    arrivals_sorted_truncated_stable
      [(("S"), [(⟨("28"), 100, 0⟩ : Candidate), ⟨("30"), 100, 5⟩])] 40 ("S")
      [(⟨("28"), 100, 0⟩ : Candidate), ⟨("30"), 100, 5⟩] (by decide)⟩

/-- C4: a stop-time update is admitted (appends a candidate, changing the
buffer map) if and only if its stop id is in the requested set, it carries
a specified (present and nonzero, per the source's truthiness check)
arrival time, and that time is strictly greater than the captured "now";
any record failing these checks — including one with a missing stop id or
missing arrival — leaves the scan state entirely unchanged (silently
skipped, never an error). -/
theorem admission_iff (now : Int) (rid : String) (st : ScanState) (su : StopTimeUpdate)
    (req : List String) (hdone : st.done = false)
    (hkeys : ∀ k, mapHas st.stopArrivals k = true ↔ k ∈ req) :
    ((processStopUpdate now rid st su).stopArrivals ≠ st.stopArrivals ↔
      ∃ k arr, su.stopId = some k ∧ k ∈ req ∧ su.arrival = some arr ∧
        arr.time ≠ 0 ∧ now < arr.time) ∧
    ((¬ ∃ k arr, su.stopId = some k ∧ k ∈ req ∧ su.arrival = some arr ∧
        arr.time ≠ 0 ∧ now < arr.time) →
      processStopUpdate now rid st su = st) := by
  cases hsid : su.stopId with
  | none =>
    have hstep : processStopUpdate now rid st su = st := by
      simp [processStopUpdate, hdone, hsid]
    rw [hstep]
    simp [hsid]
  | some k =>
    by_cases hk : mapHas st.stopArrivals k
    · cases harr : su.arrival with
      | none =>
        have hstep : processStopUpdate now rid st su = st := by
          simp [processStopUpdate, hdone, hsid, hk, harr]
        rw [hstep]
        simp [hsid, harr]
      | some arr =>
        by_cases h0 : arr.time = 0
        · have hstep : processStopUpdate now rid st su = st := by
            simp [processStopUpdate, hdone, hsid, hk, harr, h0]
          rw [hstep]
          simp [hsid, harr, h0]
        · by_cases hle : arr.time ≤ now
          · have hstep : processStopUpdate now rid st su = st := by
              simp [processStopUpdate, hdone, hsid, hk, harr, h0, hle]
            rw [hstep]
            simp [hsid, harr, h0]
            intro hkr
            omega
          · obtain ⟨buf, hbuf⟩ := Option.isSome_iff_exists.mp hk
            have hmap : (processStopUpdate now rid st su).stopArrivals =
                mapSet st.stopArrivals k (buf ++ [⟨rid, arr.time, arr.delay.getD 0⟩]) := by
              simp only [processStopUpdate, hdone, Bool.false_eq_true, if_false,
                hsid, hk, if_true, harr, h0, hle, hbuf, Option.getD_some]
              split <;> rfl
            have hne : (processStopUpdate now rid st su).stopArrivals ≠ st.stopArrivals := by
              rw [hmap]
              intro heq
              have h1 := mapGet_mapSet_self st.stopArrivals k
                (buf ++ [⟨rid, arr.time, arr.delay.getD 0⟩])
              rw [heq, hbuf] at h1
              have h2 := Option.some.inj h1
              have h3 := congrArg List.length h2
              simp at h3
            constructor
            · refine iff_of_true hne ⟨k, arr, rfl, (hkeys k).mp hk, rfl, h0, by omega⟩
            · intro hnot
              exact absurd ⟨k, arr, rfl, (hkeys k).mp hk, rfl, h0, by omega⟩ hnot
    · have hstep : processStopUpdate now rid st su = st := by
        simp [processStopUpdate, hdone, hsid, hk]
      rw [hstep]
      have hknot : k ∉ req := fun hmem => hk ((hkeys k).mpr hmem)
      simp [hsid, hknot]

/-- C4, witness: on the freshly seeded state for stop "S", an update for
"S" with arrival time 150 and "now" 0 is admitted (the buffer map
changes). -/
theorem admission_iff_witness :
    (initState [("S")]).done = false ∧
      ((processStopUpdate 0 ("28") (initState [("S")])
          ⟨some ("S"), some ⟨150, none⟩⟩).stopArrivals ≠
        (initState [("S")]).stopArrivals ↔
        ∃ k arr, (⟨some ("S"), some ⟨150, none⟩⟩ : StopTimeUpdate).stopId = some k ∧
          k ∈ [("S")] ∧
          (⟨some ("S"), some ⟨150, none⟩⟩ : StopTimeUpdate).arrival = some arr ∧
          arr.time ≠ 0 ∧ (0 : Int) < arr.time) :=
  ⟨rfl,
    (admission_iff 0 ("28") (initState [("S")]) ⟨some ("S"), some ⟨150, none⟩⟩ [("S")] rfl
      (fun k => by rw [mapHas_iff_mem_keys]; exact mem_keys_seedMap)).1⟩

/-- C5: the time formatter computes `minutesUntil` as the floor of
`(timestamp - now) / 60` clamped to a minimum of 0; it renders "Now" when
the clamped value is 0, the clamped value with the variant's unit label
("min" for the multi-stop worker, "m" for the single-stop worker) when it
is strictly between 0 and 60, and otherwise the lower-cased 12-hour
Pacific wall-clock string for the timestamp; the function is total and its
relative branch never surfaces a negative minute count (last conjunct:
every output is one of the three non-negative shapes). -/
theorem time_formatter_spec (t now : Int) :
    (max 0 ((t - now).fdiv 60) = 0 →
      formatArrivalTime t now = "Now" ∧ formatArrivalTimeSingleStop t now = "Now") ∧
    (∀ m : Int, max 0 ((t - now).fdiv 60) = m → 0 < m → m < 60 →
      formatArrivalTime t now = toString m ++ " min" ∧
      formatArrivalTimeSingleStop t now = toString m ++ " m") ∧
    (60 ≤ max 0 ((t - now).fdiv 60) →
      formatArrivalTime t now = jsToLowerCase (toLocaleTimeStringPacific t) ∧
      formatArrivalTimeSingleStop t now = jsToLowerCase (toLocaleTimeStringPacific t)) ∧
    (formatArrivalTime t now = "Now" ∨
      (∃ m : Int, 0 < m ∧ m < 60 ∧ formatArrivalTime t now = toString m ++ " min") ∨
      formatArrivalTime t now = jsToLowerCase (toLocaleTimeStringPacific t)) := by
  refine ⟨?_, ?_, ?_, ?_⟩
  · intro h0
    have hu : (t - now).fdiv 60 ≤ 0 := by
      by_contra hlt
      push_neg at hlt
      rw [max_eq_right (le_of_lt hlt)] at h0
      omega
    constructor <;>
      (dsimp only [formatArrivalTime, formatArrivalTimeSingleStop]
       rw [if_pos (by omega : (t - now).fdiv 60 < 60), if_pos h0])
  · intro m hm h1 h2
    have hu : (t - now).fdiv 60 = m := by
      rcases le_total ((t - now).fdiv 60) 0 with h | h
      · rw [max_eq_left h] at hm; omega
      · rwa [max_eq_right h] at hm
    constructor <;>
      (dsimp only [formatArrivalTime, formatArrivalTimeSingleStop]
       rw [if_pos (by omega : (t - now).fdiv 60 < 60), if_neg (by rw [hm]; omega), hm])
  · intro h60
    have hu : ¬ ((t - now).fdiv 60 < 60) := by
      intro hlt
      rcases le_total ((t - now).fdiv 60) 0 with h | h
      · rw [max_eq_left h] at h60; omega
      · rw [max_eq_right h] at h60; omega
    constructor <;>
      (dsimp only [formatArrivalTime, formatArrivalTimeSingleStop]
       rw [if_neg hu])
  · by_cases hu : (t - now).fdiv 60 < 60
    · by_cases h0 : max 0 ((t - now).fdiv 60) = 0
      · left
        dsimp only [formatArrivalTime]
        rw [if_pos hu, if_pos h0]
      · right; left
        obtain ⟨h1, h2⟩ := max_minutes_bounds hu h0
        refine ⟨max 0 ((t - now).fdiv 60), h1, h2, ?_⟩
        dsimp only [formatArrivalTime]
        rw [if_pos hu, if_neg h0]
    · right; right
      dsimp only [formatArrivalTime]
      rw [if_neg hu]

/-- C5, witness: an arrival 150 seconds out renders as "2 min" ("2 m" in
the single-stop variant). -/
theorem time_formatter_spec_witness :
    max 0 (((150 : Int) - 0).fdiv 60) = 2 ∧ (0 : Int) < 2 ∧ (2 : Int) < 60 ∧
      formatArrivalTime 150 0 = "2 min" ∧ formatArrivalTimeSingleStop 150 0 = "2 m" := by
  have h := (time_formatter_spec 150 0).2.1 2 (by decide) (by decide) (by decide)
  exact ⟨by decide, by decide, by decide, by rw [h.1]; decide, by rw [h.2]; decide⟩

/-- C6: no arrival emitted by the pipeline ever carries the arriving
string "0 min" (a zero-minute wait renders as "Now"), and the single-stop
variant's formatter likewise never produces "0 m". -/
theorem no_zero_minute_string (feed : Feed) (req : List String) (now : Int) :
    (∀ entry ∈ processGTFSData feed req now, ∀ a ∈ entry.arrivals,
      a.arriving ≠ "0 min") ∧
    (∀ ts n : Int, formatArrivalTimeSingleStop ts n ≠ "0 m") := by
  constructor
  · intro entry hentry a ha
    cases hent : feed.entity with
    | none =>
      simp only [processGTFSData, hent] at hentry
      rcases arrivals_of_mem_formatResults hentry ha with ⟨e, _, c, _, rfl⟩
      exact formatArrivalTime_ne_zero_min c.arrivalTimestamp now
    | some es =>
      simp only [processGTFSData, hent] at hentry
      rcases arrivals_of_mem_formatResults hentry ha with ⟨e, _, c, _, rfl⟩
      exact formatArrivalTime_ne_zero_min c.arrivalTimestamp now
  · exact formatArrivalTimeSingleStop_ne_zero_m

/-- C6, witness: the demo feed's single emitted arrival ("2 min") is not
"0 min". -/
theorem no_zero_minute_string_witness :
    ((⟨("101028"), [⟨("28"), "2 min", 0⟩]⟩ : StopResult) ∈
      processGTFSData demoFeed [("101028")] 0) ∧
    ((⟨("28"), "2 min", 0⟩ : FormattedArrival)).arriving ≠ "0 min" :=
  ⟨by decide,
    (no_zero_minute_string demoFeed [("101028")] 0).1
      ⟨("101028"), [⟨("28"), "2 min", 0⟩]⟩ (by decide)
      ⟨("28"), "2 min", 0⟩ (by decide)⟩

/-- C7: route normalization returns the prefix of the raw identifier
before the first separator (decomposition conjunct), leaves a
separator-free identifier unchanged, is idempotent, produces a
separator-free string, and consequently no route identifier emitted by
the pipeline contains the separator character. -/
theorem route_normalizer_spec (s : String) (feed : Feed) (req : List String) (now : Int) :
    s.data = (stripRouteSuffix s).data ++ s.data.dropWhile (· != '-') ∧
    ('-' ∉ s.data → stripRouteSuffix s = s) ∧
    stripRouteSuffix (stripRouteSuffix s) = stripRouteSuffix s ∧
    (∀ c ∈ (stripRouteSuffix s).data, c ≠ '-') ∧
    (∀ entry ∈ processGTFSData feed req now, ∀ a ∈ entry.arrivals,
      '-' ∉ a.routeId.data) := by
  refine ⟨stripRouteSuffix_decomp s, fun h => stripRouteSuffix_of_no_dash h,
    stripRouteSuffix_idem s, stripRouteSuffix_no_dash s, ?_⟩
  have hsat : ∀ (m : StopMap),
      BuffersSat (fun c => ∀ ch ∈ c.routeId.data, ch ≠ '-') m →
      ∀ entry ∈ formatResults m now, ∀ a ∈ entry.arrivals, '-' ∉ a.routeId.data := by
    intro m hm entry hentry a ha
    rcases arrivals_of_mem_formatResults hentry ha with ⟨e, he, c, hc, rfl⟩
    exact fun hdash => hm e he c hc '-' hdash rfl
  intro entry hentry a ha
  cases hent : feed.entity with
  | none =>
    simp only [processGTFSData, hent] at hentry
    exact hsat _ (buffersSat_seedMap _ req) entry hentry a ha
  | some es =>
    simp only [processGTFSData, hent] at hentry
    refine hsat _ ?_ entry hentry a ha
    exact buffersSat_foldl_processEntity
      (fun raw t d => stripRouteSuffix_no_dash raw) es (initState req)
      (buffersSat_seedMap _ req)

/-- C7, witness: normalization leaves the separator-free identifier "28"
unchanged, and the demo feed's emitted route id contains no separator. -/
theorem route_normalizer_spec_witness :
    stripRouteSuffix ("28") = ("28") ∧ '-' ∉ (("28") : String).data :=
  ⟨(route_normalizer_spec ("28") demoFeed [("101028")] 0).2.1 (by decide),
    (route_normalizer_spec ("28-VIC") demoFeed [("101028")] 0).2.2.2.2
      ⟨("101028"), [⟨("28"), "2 min", 0⟩]⟩ (by decide)
      ⟨("28"), "2 min", 0⟩ (by decide)⟩

/-- C8: the pipeline is a pure function of the feed, the requested stop
set and the single captured "now" instant: re-running it on unchanged
inputs yields identical output, and it coincides with the diagonal of the
two-clock pipeline `processGTFSDataResampled`, witnessing that the same
"now" is used for both filtering (scan) and formatting, with no
re-sampling during the scan. -/
theorem pipeline_deterministic (feed : Feed) (req : List String) (now : Int) :
    processGTFSData feed req now = processGTFSData feed req now ∧
    processGTFSData feed req now = processGTFSDataResampled feed req now now := by
  refine ⟨rfl, ?_⟩
  cases hent : feed.entity <;>
    simp [processGTFSData, processGTFSDataResampled, hent]

/-- C9: each requested stop id, however many times it occurs in the
request list, yields exactly one output entry (count 1 when requested, 0
otherwise), so with duplicate request ids the output id sequence cannot
equal the request list (it is strictly deduplicated). -/
theorem duplicate_request_ids_collapse (feed : Feed) (req : List String) (now : Int)
    (s : String) :
    ((processGTFSData feed req now).map StopResult.stopId).count s =
      (if s ∈ req then 1 else 0) ∧
    (¬ req.Nodup → (processGTFSData feed req now).map StopResult.stopId ≠ req) := by
  have hids : (processGTFSData feed req now).map StopResult.stopId =
      mapKeys (seedMap req) := by
    cases hent : feed.entity with
    | none =>
      simp only [processGTFSData, hent]
      exact formatResults_stopIds _ _
    | some es =>
      simp only [processGTFSData, hent]
      rw [formatResults_stopIds, mapKeys_foldl_processEntity]
      rfl
  constructor
  · rw [hids]
    by_cases hs : s ∈ req
    · rw [if_pos hs]
      exact List.count_eq_one_of_mem (nodup_mapKeys_seedMap req) (mem_keys_seedMap.mpr hs)
    · rw [if_neg hs]
      exact List.count_eq_zero.mpr (fun hmem => hs (mem_keys_seedMap.mp hmem))
  · intro hnod heq
    apply hnod
    rw [← heq, hids]
    exact nodup_mapKeys_seedMap req

/-- C9, witness: requesting ["A", "A"] yields a single entry for "A" and
an output id sequence different from the request list. -/
theorem duplicate_request_ids_collapse_witness :
    ((processGTFSData ⟨none⟩ [("A"), ("A")] 0).map StopResult.stopId).count ("A") = 1 ∧
      (processGTFSData ⟨none⟩ [("A"), ("A")] 0).map StopResult.stopId ≠ [("A"), ("A")] := by
  have h := duplicate_request_ids_collapse ⟨none⟩ [("A"), ("A")] 0 ("A")
  exact ⟨by rw [h.1]; decide, h.2 (by decide)⟩

/-- C10: a raw route identifier beginning with the separator normalizes to
the empty string, and such a trip's admitted arrivals are emitted with an
empty `routeId` rather than being rejected: the pipeline on `demoFeedDash`
(raw route "-VIC") emits the arrival with `routeId` equal to "". -/
theorem leading_separator_empty_route (s : String) (h : s.data.head? = some '-') :
    stripRouteSuffix s = "" ∧
    processGTFSData demoFeedDash [("101028")] 0 =
      [⟨("101028"), [⟨"", "2 min", 0⟩]⟩] :=
  ⟨stripRouteSuffix_of_head_dash h, by decide⟩

/-- C10, witness: instantiated at the raw identifier "-VIC". -/
theorem leading_separator_empty_route_witness :
    (("-VIC") : String).data.head? = some '-' ∧ stripRouteSuffix ("-VIC") = "" :=
  ⟨by decide, (leading_separator_empty_route ("-VIC") (by decide)).1⟩
